import Mathlib

/-!
Verification of the pet-profile authorization / membership model and the
slug-allocation scheme of the `757-pets` Convex backend.

The definitions below are a shallow embedding of `convex/pets/utils.ts`
(membership resolution, slug generation) and of the mutation handlers in
`convex/pets.ts` (pet creation, update, archival, member management,
contact management).  The Convex document store is modelled as an explicit
state record (`DB`); document ids are natural numbers handed out by a
`nextId` counter; the ambient authenticated identity is an
`Option String`; `Date.now()` and `Math.random()` are passed in explicitly.
Fallible handlers return `Except Err`, mirroring the `ConvexError` codes
thrown by the source; Convex mutations are transactional, so an error
leaves the store unchanged, which the `Except` encoding makes structural.
-/

namespace Pets

/-- Roles stored in `petMembers.role` (schema.ts). -/
inductive Role
  | owner
  | guardian
  | viewer
deriving DecidableEq, Repr

/-- Pet lifecycle status (schema.ts): `active | deceased | archived`. -/
inductive Status
  | active
  | deceased
  | archived
deriving DecidableEq, Repr

/-- Contact relationship tags (schema.ts). -/
inductive Relationship
  | owner
  | family
  | friend
  | vet
  | other
deriving DecidableEq, Repr, Inhabited

/-- An emergency contact entry of a pet (schema.ts `contacts` array). -/
structure Contact where
  name : String
  relationship : Relationship
  phone : Option String
  email : Option String
  preferred : Bool
deriving DecidableEq, Repr, Inhabited

/-- Share settings of a pet (schema.ts `shareSettings`). -/
structure ShareSettings where
  allowPublicProfile : Bool
  showPhoneOnLostPost : Bool
  showEmailOnLostPost : Bool
  showExactLocation : Bool
deriving DecidableEq, Repr

/-- A pet document, restricted to the fields the policy layer and the
verified mutations read or write. -/
structure Pet where
  ownerUserId : String
  name : String
  status : Status
  slug : String
  contacts : List Contact
  shareSettings : ShareSettings
  createdAt : Nat
  updatedAt : Nat
deriving DecidableEq, Repr

/-- A row of the `petMembers` table. -/
structure MemberRow where
  petId : Nat
  userId : String
  role : Role
  createdAt : Nat
deriving DecidableEq, Repr

/-- The document store: the `pets` table (id-keyed association list),
the `petMembers` table and the id counter. -/
structure DB where
  pets : List (Nat × Pet)
  petMembers : List MemberRow
  nextId : Nat
deriving DecidableEq, Repr

def emptyDB : DB := ⟨[], [], 0⟩

/-- `ctx.db.get(petId)` on the pets table. -/
def dbGetPet (db : DB) (petId : Nat) : Option Pet :=
  (db.pets.find? (fun e => e.1 == petId)).map (·.2)

/-- The `by_petId_and_userId` index lookup followed by `.first()`. -/
def findMemberRow (db : DB) (petId : Nat) (userId : String) : Option MemberRow :=
  db.petMembers.find? (fun m => m.petId == petId && m.userId == userId)

/-- The `(petId, userId)` key of every `petMembers` row, in table order. -/
def memberKeys (db : DB) : List (Nat × String) :=
  db.petMembers.map (fun m => (m.petId, m.userId))

/-- At most one `petMembers` row per `(pet, user)` pair. -/
def membersUnique (db : DB) : Prop := (memberKeys db).Nodup

/-- Result shape of `getPetMembership`: `role` is `null` (`none`) or one of
the three roles, plus the primary-owner flag. -/
structure MembershipInfo where
  role : Option Role
  isPrimaryOwner : Bool
deriving DecidableEq, Repr

/-- `getPetMembership` (pets/utils.ts, lines 121-150): absent pet yields
`{role: null, isPrimaryOwner: false}`; a matching `ownerUserId`
short-circuits to `{role: "owner", isPrimaryOwner: true}`; otherwise the
first `petMembers` row keyed by `(petId, userId)` decides. -/
def getPetMembership (db : DB) (petId : Nat) (userId : String) : MembershipInfo :=
  match dbGetPet db petId with
  | none => ⟨none, false⟩
  | some pet =>
    if pet.ownerUserId == userId then ⟨some .owner, true⟩
    else
      match findMemberRow db petId userId with
      | some m => ⟨some m.role, false⟩
      | none => ⟨none, false⟩

/-- `canEditPet` (pets/utils.ts, lines 156-167). -/
def canEditPet (db : DB) (petId : Nat) (userId : String) : Bool :=
  let m := getPetMembership db petId userId
  m.isPrimaryOwner || m.role == some .owner || m.role == some .guardian

/-- `canViewPet` (pets/utils.ts, lines 173-198).  `userId` is
`string | null` in the source and the check `if (!userId)` treats the
empty string like `null` (JavaScript falsiness), which is modelled by the
explicit `uid == ""` test. -/
def canViewPet (db : DB) (petId : Nat) (userId : Option String)
    (allowPublic : Bool) : Bool :=
  match dbGetPet db petId with
  | none => false
  | some pet =>
    if allowPublic && pet.shareSettings.allowPublicProfile then true
    else
      match userId with
      | none => false
      | some uid =>
        if uid == "" then false
        else
          let m := getPetMembership db petId uid
          m.isPrimaryOwner || !(m.role == none)

/-- A sample store used to instantiate the membership theorems: one pet
owned by `u1` with a `viewer` row for `u2`. -/
def samplePet : Pet :=
  { ownerUserId := "u1", name := "Rex", status := .active, slug := "rex-aaaa"
    contacts := [], shareSettings := ⟨false, true, false, false⟩
    createdAt := 0, updatedAt := 0 }

def sampleDB : DB :=
  { pets := [(0, samplePet)]
    petMembers := [⟨0, "u2", .viewer, 0⟩]
    nextId := 1 }

/-- A public-profile pet store used to instantiate the view theorems. -/
def pubPet : Pet :=
  { ownerUserId := "u1", name := "Bella", status := .active, slug := "bella-aaaa"
    contacts := [], shareSettings := ⟨true, true, false, false⟩
    createdAt := 0, updatedAt := 0 }

def pubDB : DB :=
  { pets := [(0, pubPet)], petMembers := [], nextId := 1 }

/-- A store holding a `viewer` row whose user id is the empty string;
`canViewPet` treats that id as absent (`if (!userId)` in the source). -/
def emptyUserDB : DB :=
  { pets := [(0, samplePet)]
    petMembers := [⟨0, "", .viewer, 0⟩]
    nextId := 1 }

/-- Characters collapsed to a hyphen by the `/[\s\-_]+/g` replacement. -/
def isSepChar (c : Char) : Bool := c.isWhitespace || c == '-' || c == '_'

/-- Characters kept by the `/[^a-z0-9-]/g` removal. -/
def isSlugChar (c : Char) : Bool :=
  ('a' ≤ c && c ≤ 'z') || ('0' ≤ c && c ≤ '9') || c == '-'

/-- Replace every run of separator characters by a single hyphen; the flag
records whether the run currently being read has already emitted its
hyphen. -/
def collapseGo : Bool → List Char → List Char
  | _, [] => []
  | inRun, c :: cs =>
    if isSepChar c then
      if inRun then collapseGo true cs else '-' :: collapseGo true cs
    else c :: collapseGo false cs

/-- The `slug.replace(/[\s\-_]+/g, "-")` step. -/
def collapseSeps (l : List Char) : List Char := collapseGo false l

/-- Remove the longest suffix of characters satisfying `p`. -/
def dropTrailing (p : Char → Bool) (l : List Char) : List Char :=
  (l.reverse.dropWhile p).reverse

/-- The `String.prototype.trim()` step. -/
def trimChars (l : List Char) : List Char :=
  dropTrailing Char.isWhitespace (l.dropWhile Char.isWhitespace)

/-- The `slug.replace(/^-+|-+$/g, "")` step. -/
def stripEdgeHyphens (l : List Char) : List Char :=
  dropTrailing (· == '-') (l.dropWhile (· == '-'))

/-- The truncation to 50 characters (`slug.substring(0, 50)`),
re-stripping a trailing hyphen run introduced by truncating. -/
def truncate50 (l : List Char) : List Char :=
  if l.length > 50 then dropTrailing (· == '-') (l.take 50) else l

/-- The base-slug normalization of `generateSlug` (pets/utils.ts,
lines 12-30): lowercase, trim, collapse separator runs, strip characters
outside `[a-z0-9-]`, strip edge hyphens, truncate to 50. -/
def slugBase (name : String) : List Char :=
  truncate50 (stripEdgeHyphens
    ((collapseSeps (trimChars (name.toList.map Char.toLower))).filter isSlugChar))

/-- The `"abcdefghijklmnopqrstuvwxyz0123456789"` suffix alphabet of
`generateRandomSuffix` (pets/utils.ts, lines 41-48). -/
def suffixAlphabet : List Char := "abcdefghijklmnopqrstuvwxyz0123456789".toList

/-- `generateRandomSuffix`: `length` draws from the 36-character alphabet;
the random source is an explicit stream of naturals (the source uses
`Math.floor(Math.random() * chars.length)`). -/
def generateRandomSuffix (rand : Nat → Nat) (length : Nat) : List Char :=
  (List.range length).map (fun i => suffixAlphabet.getD (rand i % 36) 'a')

/-- `generateSlug` (pets/utils.ts, lines 12-36): normalized base, a hyphen
and a 4-character random suffix. -/
def generateSlug (rand : Nat → Nat) (name : String) : String :=
  String.mk (slugBase name ++ '-' :: generateRandomSuffix rand 4)

/-- Modelled from the spec (and as a check of the source's regex steps): a
structurally different formulation of the collapse step --- merge each
separator with an adjacent already-emitted hyphen instead of skipping the
run with a flag.  Used only to state C6 as a refinement. -/
def specCollapse : List Char → List Char
  | [] => []
  | c :: cs =>
    if isSepChar c then
      if (specCollapse cs).head? == some '-' then specCollapse cs
      else '-' :: specCollapse cs
    else c :: specCollapse cs

/-- The spec-side normalization pipeline of §4.2 step 1, with the collapse
step written independently. -/
def specSlugBase (name : String) : List Char :=
  truncate50 (stripEdgeHyphens
    ((specCollapse (trimChars (name.toList.map Char.toLower))).filter isSlugChar))

/-- Digits used by JavaScript `Number.prototype.toString(36)`. -/
def digits36 : List Char := "0123456789abcdefghijklmnopqrstuvwxyz".toList

def digit36 (n : Nat) : Char := digits36.getD (n % 36) '0'

/-- Base-36 digits of `n`, most significant first (fuel-driven so that it
computes by kernel reduction; `n + 1` units of fuel always suffice). -/
def toBase36Go : Nat → Nat → List Char
  | 0, _ => []
  | fuel + 1, n =>
    if n < 36 then [digit36 n]
    else toBase36Go fuel (n / 36) ++ [digit36 (n % 36)]

/-- `n.toString(36)` for a natural timestamp. -/
def toBase36 (n : Nat) : List Char := toBase36Go (n + 1) n

/-- `.slice(-k)`: the last (at most) `k` characters. -/
def lastChars (k : Nat) (l : List Char) : List Char := l.drop (l.length - k)

/-- The timestamp fallback suffix `Date.now().toString(36).slice(-4)`. -/
def timestampSuffix (now : Nat) : String := String.mk (lastChars 4 (toBase36 now))

/-- The retry loop of `ensureUniqueSlug` (pets/utils.ts, lines 54-81),
with the store's slug-index query abstracted as the predicate `slugTaken`,
the per-attempt random source as `rand2`, and returning both the final
slug and the list of candidates whose uniqueness was actually checked.
`fuel` counts the remaining loop iterations (`maxAttempts - attempts`). -/
def ensureUniqueSlugGo (slugTaken : String → Bool) (rand2 : Nat → Nat → Nat)
    (ts : String) (baseSlug : String) : Nat → Nat → String → String × List String
  | _, 0, _ => (baseSlug ++ "-" ++ ts, [])
  | attempt, fuel + 1, slug =>
    if slugTaken slug then
      let next := baseSlug ++ "-" ++ String.mk (generateRandomSuffix (rand2 attempt) 2)
      let r := ensureUniqueSlugGo slugTaken rand2 ts baseSlug (attempt + 1) fuel next
      (r.1, slug :: r.2)
    else (slug, [slug])

/-- `ensureUniqueSlug`: 5 attempts, then the timestamp fallback. -/
def ensureUniqueSlug (slugTaken : String → Bool) (rand2 : Nat → Nat → Nat)
    (now : Nat) (baseSlug : String) : String :=
  (ensureUniqueSlugGo slugTaken rand2 (timestampSuffix now) baseSlug 0 5 baseSlug).1

/-- The list of candidates whose presence in the store was queried. -/
def ensureUniqueSlugChecks (slugTaken : String → Bool) (rand2 : Nat → Nat → Nat)
    (now : Nat) (baseSlug : String) : List String :=
  (ensureUniqueSlugGo slugTaken rand2 (timestampSuffix now) baseSlug 0 5 baseSlug).2

/-- The `i`-th candidate the loop would try: the base slug itself, then the
base slug with a fresh 2-character suffix (always appended to the original
base slug, never to a previously suffixed candidate). -/
def slugCandidate (rand2 : Nat → Nat → Nat) (baseSlug : String) : Nat → String
  | 0 => baseSlug
  | i + 1 => baseSlug ++ "-" ++ String.mk (generateRandomSuffix (rand2 i) 2)

def slugCandidates (rand2 : Nat → Nat → Nat) (baseSlug : String) : List String :=
  (List.range 5).map (slugCandidate rand2 baseSlug)

/-- The `pets` table query behind the `by_slug` index. -/
def dbSlugTaken (db : DB) (s : String) : Bool := db.pets.any (fun e => e.2.slug == s)

/-- Every character of the string belongs to `[a-z0-9-]`. -/
def slugCharsOnly (s : String) : Prop := ∀ c ∈ s.toList, isSlugChar c = true

/-- Non-empty and matching the regular expression `[a-z0-9-]+` anchored at
both ends. -/
def validSlug (s : String) : Prop := s.toList ≠ [] ∧ slugCharsOnly s

/-- `ConvexError` codes thrown by the mutation handlers. -/
inductive Err
  | unauthenticated
  | unauthorized
  | notFound
  | validationError
  | duplicate
  | invalidOperation
deriving DecidableEq, Repr

/-- Replace the first element satisfying `p` (the single-document `patch`
of the store). -/
def modifyFirst (p : α → Bool) (f : α → α) : List α → List α
  | [] => []
  | x :: xs => if p x then f x :: xs else x :: modifyFirst p f xs

/-- `ctx.db.patch(petId, ...)`, with the merged document computed by the
caller. -/
def dbPatchPet (db : DB) (petId : Nat) (newPet : Pet) : DB :=
  { db with pets := modifyFirst (fun e => e.1 == petId) (fun e => (e.1, newPet)) db.pets }

/-- Explicit time and randomness inputs of a mutation (`Date.now()` and
the `Math.random()` draws behind slug generation). -/
structure SlugEnv where
  rand4 : Nat → Nat
  rand2 : Nat → Nat → Nat
  now : Nat

/-- The `shareSettings` default of `createPet`. -/
def defaultShareSettings : ShareSettings := ⟨false, true, false, false⟩

/-- Arguments of `createPet` that the model tracks (the remaining optional
fields do not interact with any verified property). -/
structure CreateArgs where
  name : String
  ownerUserId : Option String := none
  contacts : Option (List Contact) := none
  shareSettings : Option ShareSettings := none

/-- `createPet` (pets.ts, lines 255-425): requires authentication, takes
`ownerUserId ?? userId` as primary owner, validates the name, allocates a
unique slug, inserts the pet document and an initial `petMembers` row for
the primary owner with role `owner`. -/
def createPet (env : SlugEnv) (auth : Option String) (db : DB)
    (args : CreateArgs) : Except Err (DB × Nat) :=
  match auth with
  | none => .error .unauthenticated
  | some userId =>
    let owner := args.ownerUserId.getD userId
    let trimmedName := trimChars args.name.toList
    if trimmedName.isEmpty then .error .validationError
    else if args.name.length > 100 then .error .validationError
    else
      let baseSlug := generateSlug env.rand4 (String.mk trimmedName)
      let slug := ensureUniqueSlug (dbSlugTaken db) env.rand2 env.now baseSlug
      let pet : Pet :=
        { ownerUserId := owner
          name := String.mk trimmedName
          status := .active
          slug := slug
          contacts := args.contacts.getD []
          shareSettings := args.shareSettings.getD defaultShareSettings
          createdAt := env.now
          updatedAt := env.now }
      let petId := db.nextId
      .ok ({ pets := db.pets ++ [(petId, pet)]
             petMembers := db.petMembers ++ [⟨petId, owner, .owner, env.now⟩]
             nextId := db.nextId + 1 }, petId)

/-- The `updates` object of `updatePet`, restricted to the tracked fields;
an absent field (`none`) means "leave unchanged". -/
structure UpdateArgs where
  name : Option String := none
  status : Option Status := none
  contacts : Option (List Contact) := none
  shareSettings : Option ShareSettings := none

/-- `updatePet` (pets.ts, lines 600-743): authentication, then the
`canEditPet` authorization check (which happens before the pet is
loaded), then the not-found check, then name validation, then a single
patch also bumping `updatedAt`. -/
def updatePet (now : Nat) (auth : Option String) (db : DB) (petId : Nat)
    (updates : UpdateArgs) : Except Err DB :=
  match auth with
  | none => .error .unauthenticated
  | some userId =>
    if canEditPet db petId userId then
      match dbGetPet db petId with
      | none => .error .notFound
      | some pet =>
        match updates.name with
        | some n =>
          let tn := trimChars n.toList
          if tn.isEmpty then .error .validationError
          else if tn.length > 100 then .error .validationError
          else .ok (dbPatchPet db petId
            { pet with
              name := String.mk tn
              status := updates.status.getD pet.status
              contacts := updates.contacts.getD pet.contacts
              shareSettings := updates.shareSettings.getD pet.shareSettings
              updatedAt := now })
        | none => .ok (dbPatchPet db petId
            { pet with
              status := updates.status.getD pet.status
              contacts := updates.contacts.getD pet.contacts
              shareSettings := updates.shareSettings.getD pet.shareSettings
              updatedAt := now })
    else .error .unauthorized

/-- `deletePet` (pets.ts, lines 749-780): authentication, load the pet
(not-found first), require primary ownership, then patch only `status`
(to `archived`) and `updatedAt`. -/
def deletePet (now : Nat) (auth : Option String) (db : DB) (petId : Nat) :
    Except Err DB :=
  match auth with
  | none => .error .unauthenticated
  | some userId =>
    match dbGetPet db petId with
    | none => .error .notFound
    | some pet =>
      if pet.ownerUserId == userId then
        .ok (dbPatchPet db petId { pet with status := .archived, updatedAt := now })
      else .error .unauthorized

/-- `addPetMember` (pets.ts, lines 854-918): edit capability, duplicate
check on the `(petId, userId)` index, not-found check, primary-owner
check, then insert. -/
def addPetMember (now : Nat) (auth : Option String) (db : DB) (petId : Nat)
    (userId : String) (role : Role) : Except Err DB :=
  match auth with
  | none => .error .unauthenticated
  | some currentUserId =>
    if canEditPet db petId currentUserId then
      match findMemberRow db petId userId with
      | some _ => .error .duplicate
      | none =>
        match dbGetPet db petId with
        | none => .error .notFound
        | some pet =>
          if pet.ownerUserId == userId then .error .invalidOperation
          else .ok { db with
            petMembers := db.petMembers ++ [⟨petId, userId, role, now⟩] }
    else .error .unauthorized

/-- `removePetMember` (pets.ts, lines 924-977): edit capability, load the
pet, refuse to remove the primary owner, then delete the found row. -/
def removePetMember (auth : Option String) (db : DB) (petId : Nat)
    (userId : String) : Except Err DB :=
  match auth with
  | none => .error .unauthenticated
  | some currentUserId =>
    if canEditPet db petId currentUserId then
      match dbGetPet db petId with
      | none => .error .notFound
      | some pet =>
        if pet.ownerUserId == userId then .error .invalidOperation
        else
          match findMemberRow db petId userId with
          | none => .error .notFound
          | some _ => .ok { db with
              petMembers := db.petMembers.eraseP
                (fun m => m.petId == petId && m.userId == userId) }
    else .error .unauthorized

/-- `updatePetMemberRole` (pets.ts, lines 982-1027): edit capability,
find the row, patch only its role. -/
def updatePetMemberRole (auth : Option String) (db : DB) (petId : Nat)
    (userId : String) (newRole : Role) : Except Err DB :=
  match auth with
  | none => .error .unauthenticated
  | some currentUserId =>
    if canEditPet db petId currentUserId then
      match findMemberRow db petId userId with
      | none => .error .notFound
      | some _ => .ok { db with
          petMembers := modifyFirst
            (fun m => m.petId == petId && m.userId == userId)
            (fun m => { m with role := newRole }) db.petMembers }
    else .error .unauthorized

/-- `addPetContact` (pets.ts, lines 1083-1143): edit capability, load,
enforce the 5-contact cap, then append one contact. -/
def addPetContact (now : Nat) (auth : Option String) (db : DB) (petId : Nat)
    (contact : Contact) : Except Err DB :=
  match auth with
  | none => .error .unauthenticated
  | some userId =>
    if canEditPet db petId userId then
      match dbGetPet db petId with
      | none => .error .notFound
      | some pet =>
        if pet.contacts.length ≥ 5 then .error .validationError
        else .ok (dbPatchPet db petId
          { pet with contacts := pet.contacts ++ [contact], updatedAt := now })
    else .error .unauthorized

/-- The per-field updates of `updatePetContact`; an absent field means
"leave unchanged" (object-spread merge). -/
structure ContactUpdates where
  name : Option String := none
  relationship : Option Relationship := none
  phone : Option (Option String) := none
  email : Option (Option String) := none
  preferred : Option Bool := none

def applyContactUpdates (c : Contact) (u : ContactUpdates) : Contact :=
  { name := u.name.getD c.name
    relationship := u.relationship.getD c.relationship
    phone := u.phone.getD c.phone
    email := u.email.getD c.email
    preferred := u.preferred.getD c.preferred }

/-- `updatePetContact` (pets.ts, lines 1148-1215): edit capability, load,
bounds-check the index (`contactIndex` is a JavaScript number, so the
model takes an integer to capture negative inputs), then merge-update the
entry in place. -/
def updatePetContact (now : Nat) (auth : Option String) (db : DB) (petId : Nat)
    (contactIndex : Int) (u : ContactUpdates) : Except Err DB :=
  match auth with
  | none => .error .unauthenticated
  | some userId =>
    if canEditPet db petId userId then
      match dbGetPet db petId with
      | none => .error .notFound
      | some pet =>
        if contactIndex < 0 ∨ (pet.contacts.length : Int) ≤ contactIndex then
          .error .validationError
        else
          let i := contactIndex.toNat
          .ok (dbPatchPet db petId
            { pet with
              contacts := pet.contacts.set i
                (applyContactUpdates (pet.contacts.getD i default) u)
              updatedAt := now })
    else .error .unauthorized

/-- `removePetContact` (pets.ts, lines 1220-1270): edit capability, load,
bounds-check the index, then filter the entry out. -/
def removePetContact (now : Nat) (auth : Option String) (db : DB) (petId : Nat)
    (contactIndex : Int) : Except Err DB :=
  match auth with
  | none => .error .unauthenticated
  | some userId =>
    if canEditPet db petId userId then
      match dbGetPet db petId with
      | none => .error .notFound
      | some pet =>
        if contactIndex < 0 ∨ (pet.contacts.length : Int) ≤ contactIndex then
          .error .validationError
        else .ok (dbPatchPet db petId
          { pet with
            contacts := pet.contacts.eraseIdx contactIndex.toNat
            updatedAt := now })
    else .error .unauthorized

/-- The concrete store after archiving `sampleDB`'s pet. -/
def delDB : DB :=
  match deletePet 5 (some "u1") sampleDB 0 with
  | .ok d => d
  | .error _ => emptyDB

/-- A pet already holding the maximum of 5 contacts. -/
def fullPet : Pet :=
  { samplePet with
    contacts := List.replicate 5 ⟨"A", .other, none, none, false⟩
    slug := "full-aaaa" }

def fullDB : DB := { pets := [(0, fullPet)], petMembers := [], nextId := 1 }

/-- The concrete store after a successful contact append on `sampleDB`. -/
def addedDB : DB :=
  match addPetContact 9 (some "u1") sampleDB 0 ⟨"B", .vet, none, none, true⟩ with
  | .ok d => d
  | .error _ => emptyDB

/-- The inductive invariant of the store: pet ids are unique and below
the id counter, member rows point below the counter, member keys are
unique, and every pet's primary owner has a member row. -/
def DBInv (db : DB) : Prop :=
  (db.pets.map Prod.fst).Nodup
  ∧ (∀ i ∈ db.pets.map Prod.fst, i < db.nextId)
  ∧ (∀ k ∈ memberKeys db, k.1 < db.nextId)
  ∧ membersUnique db
  ∧ (∀ e ∈ db.pets, (e.1, e.2.ownerUserId) ∈ memberKeys db)

/-- Store states reachable from the empty store through the public pet
mutations. -/
inductive Reached : DB → Prop
  | init : Reached emptyDB
  | createStep {env auth db args db' petId} : Reached db →
      createPet env auth db args = .ok (db', petId) → Reached db'
  | updateStep {now auth db petId updates db'} : Reached db →
      updatePet now auth db petId updates = .ok db' → Reached db'
  | deleteStep {now auth db petId db'} : Reached db →
      deletePet now auth db petId = .ok db' → Reached db'
  | addMemberStep {now auth db petId userId role db'} : Reached db →
      addPetMember now auth db petId userId role = .ok db' → Reached db'
  | removeMemberStep {auth db petId userId db'} : Reached db →
      removePetMember auth db petId userId = .ok db' → Reached db'
  | updateRoleStep {auth db petId userId newRole db'} : Reached db →
      updatePetMemberRole auth db petId userId newRole = .ok db' → Reached db'
  | addContactStep {now auth db petId c db'} : Reached db →
      addPetContact now auth db petId c = .ok db' → Reached db'
  | updateContactStep {now auth db petId i u db'} : Reached db →
      updatePetContact now auth db petId i u = .ok db' → Reached db'
  | removeContactStep {now auth db petId i db'} : Reached db →
      removePetContact now auth db petId i = .ok db' → Reached db'

/-- Randomness/time inputs used by the concrete creation runs. -/
def createEnv : SlugEnv := ⟨fun _ => 0, fun _ _ => 0, 1000⟩

/-- The store after `createPet` of a pet named "Rex" by user `u1` on the
empty store. -/
def dbRex : DB :=
  match createPet createEnv (some "u1") emptyDB { name := "Rex" } with
  | .ok (d, _) => d
  | .error _ => emptyDB

/-- Six identical contacts, one more than the documented cap. -/
def sixContacts : List Contact := List.replicate 6 ⟨"A", .other, none, none, false⟩

/-- The store after `createPet` with six contacts supplied at creation. -/
def dbSix : DB :=
  match createPet createEnv (some "u1") emptyDB
      { name := "Rex", contacts := some sixContacts } with
  | .ok (d, _) => d
  | .error _ => emptyDB

/-- The first row found under a key is the unique matching row when the
table has no duplicate keys. -/
theorem find?_row_of_unique (l : List MemberRow) (petId : Nat) (userId : String)
    (m : MemberRow) (hu : (l.map (fun r => (r.petId, r.userId))).Nodup)
    (hm : m ∈ l) (hp : m.petId = petId) (hid : m.userId = userId) :
    l.find? (fun r => r.petId == petId && r.userId == userId) = some m := by
  induction l with
  | nil => cases hm
  | cons a l ih =>
    rw [List.map_cons, List.nodup_cons] at hu
    rcases List.mem_cons.mp hm with h | h
    · subst h
      simp [List.find?, hp, hid]
    · have hne : (a.petId == petId && a.userId == userId) = false := by
        by_contra hc
        have : (a.petId == petId && a.userId == userId) = true := by
          revert hc; cases a.petId == petId && a.userId == userId <;> simp
        have hkey : (a.petId, a.userId) = (petId, userId) := by
          simp only [Bool.and_eq_true, beq_iff_eq] at this
          simp [this.1, this.2]
        exact hu.1 (by
          rw [hkey, ← hp, ← hid]
          exact List.mem_map.mpr ⟨m, h, rfl⟩)
      simp only [List.find?, hne]
      exact ih hu.2 h

/-- C1: `getPetMembership` returns `{role: none, isPrimaryOwner: false}` for
an absent pet; returns `{role: owner, isPrimaryOwner: true}` whenever
`pet.ownerUserId` equals the user id, independently of the whole
`petMembers` table; otherwise returns the role of the unique
`(petId, userId)` row with `isPrimaryOwner := false`, or
`{role: none, isPrimaryOwner: false}` when no such row exists.  It is a
total function, so it never raises. -/
theorem getPetMembership_resolution :
    (∀ db petId userId, dbGetPet db petId = none →
        getPetMembership db petId userId = ⟨none, false⟩)
    ∧ (∀ db petId userId pet, dbGetPet db petId = some pet →
        pet.ownerUserId = userId →
        ∀ rows, getPetMembership { db with petMembers := rows } petId userId
          = ⟨some .owner, true⟩)
    ∧ (∀ db petId userId pet m, dbGetPet db petId = some pet →
        pet.ownerUserId ≠ userId → membersUnique db →
        m ∈ db.petMembers → m.petId = petId → m.userId = userId →
        getPetMembership db petId userId = ⟨some m.role, false⟩)
    ∧ (∀ db petId userId pet, dbGetPet db petId = some pet →
        pet.ownerUserId ≠ userId →
        (∀ m ∈ db.petMembers, ¬(m.petId = petId ∧ m.userId = userId)) →
        getPetMembership db petId userId = ⟨none, false⟩) := by
  refine ⟨?_, ?_, ?_, ?_⟩
  · intro db petId userId h
    simp [getPetMembership, h]
  · intro db petId userId pet h howner rows
    have h' : dbGetPet { db with petMembers := rows } petId = some pet := h
    simp [getPetMembership, h', howner]
  · intro db petId userId pet m h howner hu hm hp hid
    have hne : (pet.ownerUserId == userId) = false := by
      simp [howner]
    have hf : findMemberRow db petId userId = some m :=
      find?_row_of_unique _ _ _ _ hu hm hp hid
    simp [getPetMembership, h, hne, hf]
  · intro db petId userId pet h howner hnone
    have hne : (pet.ownerUserId == userId) = false := by
      simp [howner]
    have hf : findMemberRow db petId userId = none := by
      apply List.find?_eq_none.mpr
      intro r hr
      have := hnone r hr
      simp only [Bool.and_eq_true, beq_iff_eq, not_and] at this ⊢
      intro h1 h2
      exact this h1 h2
    simp [getPetMembership, h, hne, hf]

theorem getPetMembership_resolution_witness :
    getPetMembership sampleDB 0 "u2" = ⟨some .viewer, false⟩
    ∧ getPetMembership sampleDB 1 "u2" = ⟨none, false⟩
    ∧ getPetMembership sampleDB 0 "u1" = ⟨some .owner, true⟩ := by
  refine ⟨?_, ?_, ?_⟩
  · exact getPetMembership_resolution.2.2.1 sampleDB 0 "u2" samplePet
      ⟨0, "u2", .viewer, 0⟩ (by decide) (by decide)
      (by simp only [membersUnique]; decide) (by decide) (by decide) (by decide)
  · exact getPetMembership_resolution.1 sampleDB 1 "u2" (by decide)
  · exact getPetMembership_resolution.2.1 sampleDB 0 "u1" samplePet
      (by decide) (by decide) sampleDB.petMembers

/-- C2: `canEditPet` is true exactly when `getPetMembership` yields the
primary-owner flag or role `owner` or `guardian`; the primary owner can
edit independently of the `petMembers` table; a user whose only relation
is a `viewer` row, or no relation at all, cannot edit. -/
theorem canEditPet_resolution :
    (∀ db petId userId,
        canEditPet db petId userId = true ↔
          ((getPetMembership db petId userId).isPrimaryOwner = true
            ∨ (getPetMembership db petId userId).role = some .owner
            ∨ (getPetMembership db petId userId).role = some .guardian))
    ∧ (∀ db petId userId pet, dbGetPet db petId = some pet →
        pet.ownerUserId = userId →
        ∀ rows, canEditPet { db with petMembers := rows } petId userId = true)
    ∧ (∀ db petId userId,
        (∀ pet, dbGetPet db petId = some pet → pet.ownerUserId ≠ userId) →
        (∀ m ∈ db.petMembers, m.petId = petId → m.userId = userId →
          m.role = .viewer) →
        canEditPet db petId userId = false) := by
  refine ⟨?_, ?_, ?_⟩
  · intro db petId userId
    simp [canEditPet, or_assoc]
  · intro db petId userId pet h howner rows
    have h' := getPetMembership_resolution.2.1 db petId userId pet h howner rows
    simp [canEditPet, h']
  · intro db petId userId hnotOwner hviewer
    cases hdb : dbGetPet db petId with
    | none =>
      simp [canEditPet, getPetMembership, hdb]
    | some pet =>
      have hne : (pet.ownerUserId == userId) = false := by
        simp [hnotOwner pet hdb]
      cases hf : findMemberRow db petId userId with
      | none =>
        simp [canEditPet, getPetMembership, hdb, hne, hf]
      | some m =>
        have hpred := List.find?_some hf
        simp only [Bool.and_eq_true, beq_iff_eq] at hpred
        have hmem := List.mem_of_find?_eq_some hf
        have hrole : m.role = .viewer := hviewer m hmem hpred.1 hpred.2
        simp [canEditPet, getPetMembership, hdb, hne, hf, hrole]

theorem canEditPet_resolution_witness :
    canEditPet sampleDB 0 "u1" = true
    ∧ canEditPet sampleDB 0 "u2" = false
    ∧ canEditPet sampleDB 0 "u3" = false := by
  refine ⟨?_, ?_, ?_⟩
  · exact canEditPet_resolution.2.1 sampleDB 0 "u1" samplePet (by decide)
      (by decide) sampleDB.petMembers
  · exact canEditPet_resolution.2.2 sampleDB 0 "u2" (by decide) (by decide)
  · exact canEditPet_resolution.2.2 sampleDB 0 "u3" (by decide) (by decide)

/-- C3 counterexample: for the empty-string user id, which JavaScript
truthiness treats as absent, `canViewPet` returns `false` even though
`getPetMembership` yields the non-`none` role `viewer`, so the claimed
equivalence for every present user id fails at `userId = ""`. -/
theorem canViewPet_emptyUser_counterexample :
    canViewPet emptyUserDB 0 (some "") false = false
    ∧ (getPetMembership emptyUserDB 0 "").role = some .viewer
    ∧ ¬((getPetMembership emptyUserDB 0 "").isPrimaryOwner = true
        ∨ (getPetMembership emptyUserDB 0 "").role = none) := by
  refine ⟨by decide, by decide, by decide⟩

/-- C3 (amended): `canViewPet` with `allowPublic := true` on a pet whose
`shareSettings.allowPublicProfile` is set returns true even for an absent
user id; it returns false for an absent pet; outside the public path it
returns false for an absent user id, and for a present, non-empty user id
(the empty string is treated as absent by the source's truthiness check)
it returns true exactly when `getPetMembership` yields the primary-owner
flag or any non-`none` role; a user with no relation to a pet whose
`allowPublicProfile` is false cannot view it even with
`allowPublic := true`. -/
theorem canViewPet_resolution :
    (∀ db petId pet uid?, dbGetPet db petId = some pet →
        pet.shareSettings.allowPublicProfile = true →
        canViewPet db petId uid? true = true)
    ∧ (∀ db petId uid? ap, dbGetPet db petId = none →
        canViewPet db petId uid? ap = false)
    ∧ (∀ db petId pet ap, dbGetPet db petId = some pet →
        (ap && pet.shareSettings.allowPublicProfile) = false →
        canViewPet db petId none ap = false)
    ∧ (∀ db petId pet ap uid, dbGetPet db petId = some pet →
        (ap && pet.shareSettings.allowPublicProfile) = false → uid ≠ "" →
        (canViewPet db petId (some uid) ap = true ↔
          ((getPetMembership db petId uid).isPrimaryOwner = true
            ∨ (getPetMembership db petId uid).role ≠ none)))
    ∧ (∀ db petId pet uid, dbGetPet db petId = some pet →
        pet.shareSettings.allowPublicProfile = false →
        pet.ownerUserId ≠ uid →
        (∀ m ∈ db.petMembers, ¬(m.petId = petId ∧ m.userId = uid)) →
        canViewPet db petId (some uid) true = false) := by
  refine ⟨?_, ?_, ?_, ?_, ?_⟩
  · intro db petId pet uid? h hpub
    simp [canViewPet, h, hpub]
  · intro db petId uid? ap h
    simp [canViewPet, h]
  · intro db petId pet ap h hpriv
    simp [canViewPet, h, hpriv]
  · intro db petId pet ap uid h hpriv huid
    have huid' : (uid == "") = false := by
      simp [huid]
    simp [canViewPet, h, hpriv, huid']
  · intro db petId pet uid h hpriv howner hnone
    have hm := getPetMembership_resolution.2.2.2 db petId uid pet h howner hnone
    cases huid : uid == "" with
    | true => simp [canViewPet, h, hpriv, huid]
    | false => simp [canViewPet, h, hpriv, huid, hm]

theorem canViewPet_resolution_witness :
    canViewPet sampleDB 0 (some "u2") false = true
    ∧ canViewPet sampleDB 0 none false = false
    ∧ canViewPet pubDB 0 none true = true
    ∧ canViewPet sampleDB 0 (some "u3") true = false := by
  refine ⟨?_, ?_, ?_, ?_⟩
  · exact (canViewPet_resolution.2.2.2.1 sampleDB 0 samplePet false "u2"
      (by decide) (by decide) (by decide)).mpr (Or.inr (by decide))
  · exact canViewPet_resolution.2.2.1 sampleDB 0 samplePet false
      (by decide) (by decide)
  · exact canViewPet_resolution.1 pubDB 0 pubPet none (by decide) (by decide)
  · exact canViewPet_resolution.2.2.2.2 sampleDB 0 samplePet "u3"
      (by decide) (by decide) (by decide) (by decide)

theorem collapseGo_false_sep (c : Char) (cs : List Char) (h : isSepChar c = true) :
    collapseGo false (c :: cs) = '-' :: collapseGo true cs := by
  simp [collapseGo, h]

theorem collapseGo_true_sep (c : Char) (cs : List Char) (h : isSepChar c = true) :
    collapseGo true (c :: cs) = collapseGo true cs := by
  simp [collapseGo, h]

theorem collapseGo_notsep (b : Bool) (c : Char) (cs : List Char)
    (h : isSepChar c = false) :
    collapseGo b (c :: cs) = c :: collapseGo false cs := by
  simp [collapseGo, h]

/-- Merging a hyphen into the already-collapsed rest agrees with skipping
the rest of the run via the flag. -/
theorem specCollapse_merge (cs : List Char) :
    (if (collapseGo false cs).head? == some '-' then collapseGo false cs
      else '-' :: collapseGo false cs) = '-' :: collapseGo true cs := by
  cases cs with
  | nil => rfl
  | cons d ds =>
    cases hd : isSepChar d with
    | true =>
      rw [collapseGo_false_sep d ds hd, collapseGo_true_sep d ds hd]
      simp
    | false =>
      have hne : d ≠ '-' := by
        intro he
        rw [he] at hd
        simp [isSepChar] at hd
      rw [collapseGo_notsep false d ds hd, collapseGo_notsep true d ds hd]
      simp [hne]

/-- The two collapse formulations agree. -/
theorem specCollapse_eq_collapseSeps (l : List Char) :
    specCollapse l = collapseSeps l := by
  unfold collapseSeps
  induction l with
  | nil => rfl
  | cons c cs ih =>
    cases hc : isSepChar c with
    | true =>
      rw [collapseGo_false_sep c cs hc]
      simp only [specCollapse, hc, if_true, ih]
      exact specCollapse_merge cs
    | false =>
      rw [collapseGo_notsep false c cs hc]
      simp only [specCollapse, hc, ih]
      simp

/-- Every drawn suffix character comes from the 36-character alphabet and
is a legal slug character. -/
theorem generateRandomSuffix_chars (rand : Nat → Nat) (len : Nat) :
    ∀ c ∈ generateRandomSuffix rand len, c ∈ suffixAlphabet ∧ isSlugChar c = true := by
  have hball : ∀ k, k < 36 →
      suffixAlphabet.getD k 'a' ∈ suffixAlphabet
        ∧ isSlugChar (suffixAlphabet.getD k 'a') = true := by decide
  intro c hc
  simp only [generateRandomSuffix, List.mem_map, List.mem_range] at hc
  obtain ⟨i, _, rfl⟩ := hc
  exact hball _ (Nat.mod_lt _ (by norm_num))

theorem generateRandomSuffix_length (rand : Nat → Nat) (len : Nat) :
    (generateRandomSuffix rand len).length = len := by
  simp [generateRandomSuffix]

/-- C6: `generateSlug` computes the base slug by exactly the specified
steps in order — lowercase, trim, collapse separator runs to single
hyphens, strip characters outside `[a-z0-9-]`, strip edge hyphens,
truncate to 50 re-stripping a trailing hyphen — and appends a hyphen and
a 4-character random suffix drawn from `[a-z0-9]`; this is stated as
agreement with the independently written spec pipeline `specSlugBase`,
and on `"Fluffy Jr."` the base is exactly `"fluffy-jr"`. -/
theorem generateSlug_steps :
    (∀ rand name, generateSlug rand name
        = String.mk (specSlugBase name ++ '-' :: generateRandomSuffix rand 4))
    ∧ (∀ rand, generateSlug rand "Fluffy Jr."
        = String.mk ("fluffy-jr-".toList ++ generateRandomSuffix rand 4))
    ∧ (∀ rand, (generateRandomSuffix rand 4).length = 4)
    ∧ (∀ rand len, ∀ c ∈ generateRandomSuffix rand len,
        c ∈ suffixAlphabet ∧ isSlugChar c = true)
    ∧ slugBase "Fluffy Jr." = "fluffy-jr".toList := by
  have hbase : ∀ name, slugBase name = specSlugBase name := by
    intro name
    simp [slugBase, specSlugBase, specCollapse_eq_collapseSeps]
  refine ⟨?_, ?_, ?_, ?_, ?_⟩
  · intro rand name
    rw [generateSlug, hbase]
  · intro rand
    have h9 : slugBase "Fluffy Jr." = "fluffy-jr".toList := by decide
    rw [generateSlug, h9]
    have hx : ("fluffy-jr-".toList : List Char) = "fluffy-jr".toList ++ ['-'] := by
      decide
    rw [hx, List.append_assoc]
    rfl
  · intro rand
    exact generateRandomSuffix_length rand 4
  · intro rand len
    exact generateRandomSuffix_chars rand len
  · decide

theorem generateSlug_steps_witness :
    generateSlug (fun _ => 0) "Fluffy Jr." = "fluffy-jr-aaaa"
    ∧ ('a' ∈ suffixAlphabet ∧ isSlugChar 'a' = true) := by
  constructor
  · rw [generateSlug_steps.2.1 (fun _ => 0)]
    decide
  · exact generateSlug_steps.2.2.2.1 (fun _ => 0) 4 'a' (by decide)

theorem ensureUniqueSlugGo_checks_length (slugTaken : String → Bool)
    (rand2 : Nat → Nat → Nat) (ts baseSlug : String) :
    ∀ fuel attempt slug,
      ((ensureUniqueSlugGo slugTaken rand2 ts baseSlug attempt fuel slug).2).length ≤ fuel := by
  intro fuel
  induction fuel with
  | zero => intro attempt slug; simp [ensureUniqueSlugGo]
  | succ fuel ih =>
    intro attempt slug
    by_cases h : slugTaken slug
    · simpa [ensureUniqueSlugGo, h] using ih (attempt + 1) _
    · simp [ensureUniqueSlugGo, h]

/-- C7: the retry loop checks at most 5 candidates against the slug index
and always returns (it is total); the candidates checked are, in order, an
initial segment of `baseSlug, baseSlug-s₀, …, baseSlug-s₃` where each `sᵢ`
is a fresh 2-character suffix appended to the original base; the first
candidate found absent is returned; and when all five collide the result
is the base slug with the low-order 4 base-36 digits of the current
timestamp appended, with no further uniqueness check (the fallback is
returned for every `slugTaken` that marks the five candidates taken,
whatever it answers on the fallback itself). -/
theorem ensureUniqueSlug_loop (slugTaken : String → Bool) (rand2 : Nat → Nat → Nat)
    (now : Nat) (baseSlug : String) :
    (ensureUniqueSlugChecks slugTaken rand2 now baseSlug).length ≤ 5
    ∧ ensureUniqueSlugChecks slugTaken rand2 now baseSlug
        = (slugCandidates rand2 baseSlug).take
            (ensureUniqueSlugChecks slugTaken rand2 now baseSlug).length
    ∧ (∀ i, slugCandidate rand2 baseSlug (i + 1)
        = baseSlug ++ "-" ++ String.mk (generateRandomSuffix (rand2 i) 2))
    ∧ (∀ i, i < 5 →
        (∀ j, j < i → slugTaken (slugCandidate rand2 baseSlug j) = true) →
        slugTaken (slugCandidate rand2 baseSlug i) = false →
        ensureUniqueSlug slugTaken rand2 now baseSlug = slugCandidate rand2 baseSlug i)
    ∧ ((∀ i, i < 5 → slugTaken (slugCandidate rand2 baseSlug i) = true) →
        ensureUniqueSlug slugTaken rand2 now baseSlug
            = baseSlug ++ "-" ++ timestampSuffix now
          ∧ ensureUniqueSlugChecks slugTaken rand2 now baseSlug
            = slugCandidates rand2 baseSlug) := by
  refine ⟨ensureUniqueSlugGo_checks_length _ _ _ _ 5 0 baseSlug, ?_, fun i => rfl, ?_, ?_⟩
  · by_cases h0 : slugTaken (slugCandidate rand2 baseSlug 0)
    · by_cases h1 : slugTaken (slugCandidate rand2 baseSlug 1)
      · by_cases h2 : slugTaken (slugCandidate rand2 baseSlug 2)
        · by_cases h3 : slugTaken (slugCandidate rand2 baseSlug 3)
          · by_cases h4 : slugTaken (slugCandidate rand2 baseSlug 4)
            · simp only [slugCandidate] at h0 h1 h2 h3 h4
              simp [ensureUniqueSlugChecks, ensureUniqueSlugGo, slugCandidates,
                slugCandidate, h0, h1, h2, h3, h4, List.range_succ]
            · simp only [slugCandidate] at h0 h1 h2 h3 h4
              simp [ensureUniqueSlugChecks, ensureUniqueSlugGo, slugCandidates,
                slugCandidate, h0, h1, h2, h3, h4, List.range_succ]
          · simp only [slugCandidate] at h0 h1 h2 h3
            simp [ensureUniqueSlugChecks, ensureUniqueSlugGo, slugCandidates,
              slugCandidate, h0, h1, h2, h3, List.range_succ]
        · simp only [slugCandidate] at h0 h1 h2
          simp [ensureUniqueSlugChecks, ensureUniqueSlugGo, slugCandidates,
            slugCandidate, h0, h1, h2, List.range_succ]
      · simp only [slugCandidate] at h0 h1
        simp [ensureUniqueSlugChecks, ensureUniqueSlugGo, slugCandidates,
          slugCandidate, h0, h1, List.range_succ]
    · simp only [slugCandidate] at h0
      simp [ensureUniqueSlugChecks, ensureUniqueSlugGo, slugCandidates,
        slugCandidate, h0, List.range_succ]
  · intro i hi hprev hcur
    interval_cases i
    · simp only [slugCandidate] at hcur
      simp [ensureUniqueSlug, ensureUniqueSlugGo, slugCandidate, hcur]
    · have h0 := hprev 0 (by norm_num)
      simp only [slugCandidate] at h0 hcur
      simp [ensureUniqueSlug, ensureUniqueSlugGo, slugCandidate, h0, hcur]
    · have h0 := hprev 0 (by norm_num)
      have h1 := hprev 1 (by norm_num)
      simp only [slugCandidate] at h0 h1 hcur
      simp [ensureUniqueSlug, ensureUniqueSlugGo, slugCandidate, h0, h1, hcur]
    · have h0 := hprev 0 (by norm_num)
      have h1 := hprev 1 (by norm_num)
      have h2 := hprev 2 (by norm_num)
      simp only [slugCandidate] at h0 h1 h2 hcur
      simp [ensureUniqueSlug, ensureUniqueSlugGo, slugCandidate, h0, h1, h2, hcur]
    · have h0 := hprev 0 (by norm_num)
      have h1 := hprev 1 (by norm_num)
      have h2 := hprev 2 (by norm_num)
      have h3 := hprev 3 (by norm_num)
      simp only [slugCandidate] at h0 h1 h2 h3 hcur
      simp [ensureUniqueSlug, ensureUniqueSlugGo, slugCandidate, h0, h1, h2, h3, hcur]
  · intro hall
    have h0 := hall 0 (by norm_num)
    have h1 := hall 1 (by norm_num)
    have h2 := hall 2 (by norm_num)
    have h3 := hall 3 (by norm_num)
    have h4 := hall 4 (by norm_num)
    simp only [slugCandidate] at h0 h1 h2 h3 h4
    constructor
    · simp [ensureUniqueSlug, ensureUniqueSlugGo, h0, h1, h2, h3, h4]
    · simp [ensureUniqueSlugChecks, ensureUniqueSlugGo, slugCandidates,
        slugCandidate, h0, h1, h2, h3, h4, List.range_succ]

theorem ensureUniqueSlug_loop_witness :
    ensureUniqueSlug (fun _ => false) (fun _ _ => 0) 0 "rex-aaaa" = "rex-aaaa"
    ∧ ensureUniqueSlug (fun _ => true) (fun _ _ => 0) 7 "rex-aaaa"
        = "rex-aaaa" ++ "-" ++ timestampSuffix 7 := by
  constructor
  · exact (ensureUniqueSlug_loop (fun _ => false) (fun _ _ => 0) 0 "rex-aaaa").2.2.2.1
      0 (by norm_num) (fun j hj => absurd hj (Nat.not_lt_zero j)) rfl
  · exact ((ensureUniqueSlug_loop (fun _ => true) (fun _ _ => 0) 7 "rex-aaaa").2.2.2.2
      (fun i _ => rfl)).1

theorem mem_dropTrailing {p : Char → Bool} {l : List Char} {c : Char}
    (h : c ∈ dropTrailing p l) : c ∈ l := by
  simp only [dropTrailing, List.mem_reverse] at h
  exact List.mem_reverse.mp ((List.dropWhile_sublist p).mem h)

theorem mem_stripEdgeHyphens {l : List Char} {c : Char}
    (h : c ∈ stripEdgeHyphens l) : c ∈ l :=
  (List.dropWhile_sublist (· == '-')).mem (mem_dropTrailing h)

theorem mem_truncate50 {l : List Char} {c : Char} (h : c ∈ truncate50 l) : c ∈ l := by
  unfold truncate50 at h
  split at h
  · exact List.take_subset 50 l (mem_dropTrailing h)
  · exact h

/-- After the character filter, every base-slug character is legal. -/
theorem slugBase_chars (name : String) :
    ∀ c ∈ slugBase name, isSlugChar c = true := by
  intro c hc
  have h1 := mem_stripEdgeHyphens (mem_truncate50 hc)
  exact (List.mem_filter.mp h1).2

theorem digit36_slugChar (k : Nat) : isSlugChar (digit36 k) = true := by
  have hball : ∀ j, j < 36 → isSlugChar (digits36.getD j '0') = true := by decide
  exact hball _ (Nat.mod_lt _ (by norm_num))

theorem toBase36Go_chars :
    ∀ fuel n, ∀ c ∈ toBase36Go fuel n, isSlugChar c = true := by
  intro fuel
  induction fuel with
  | zero => intro n c hc; simp [toBase36Go] at hc
  | succ fuel ih =>
    intro n c hc
    unfold toBase36Go at hc
    split at hc
    · rw [List.mem_singleton.mp hc]
      exact digit36_slugChar n
    · rcases List.mem_append.mp hc with h | h
      · exact ih _ c h
      · rw [List.mem_singleton.mp h]
        exact digit36_slugChar _

theorem timestampSuffix_chars (now : Nat) : slugCharsOnly (timestampSuffix now) := by
  intro c hc
  have : c ∈ toBase36 now := List.drop_subset _ _ hc
  exact toBase36Go_chars _ _ c this

/-- Appending a hyphen and a slug-character string keeps a slug valid. -/
theorem validSlug_hyphen_append (a s : String) (ha : validSlug a)
    (hs : slugCharsOnly s) : validSlug (a ++ "-" ++ s) := by
  have hl : (a ++ "-" ++ s).toList = a.toList ++ '-' :: s.toList := by
    show (a.toList ++ "-".toList) ++ s.toList = _
    simp
  constructor
  · rw [hl]
    simp
  · intro c hc
    rw [hl] at hc
    rcases List.mem_append.mp hc with h | h
    · exact ha.2 c h
    · rcases List.mem_cons.mp h with h | h
      · rw [h]; decide
      · exact hs c h

/-- `generateSlug` always yields a valid slug: the filtered base, a hyphen
and alphabet characters. -/
theorem generateSlug_valid (rand : Nat → Nat) (name : String) :
    validSlug (generateSlug rand name) := by
  constructor
  · show slugBase name ++ '-' :: generateRandomSuffix rand 4 ≠ []
    simp
  · intro c hc
    have hc' : c ∈ slugBase name ++ '-' :: generateRandomSuffix rand 4 := hc
    rcases List.mem_append.mp hc' with h | h
    · exact slugBase_chars name c h
    · rcases List.mem_cons.mp h with h | h
      · rw [h]; decide
      · exact (generateRandomSuffix_chars rand 4 c h).2

/-- The loop only ever returns the current candidate, a suffixed base, or
the timestamp fallback, all of which are valid when the inputs are. -/
theorem ensureUniqueSlugGo_valid (slugTaken : String → Bool)
    (rand2 : Nat → Nat → Nat) (ts baseSlug : String) (hb : validSlug baseSlug)
    (hts : slugCharsOnly ts) :
    ∀ fuel attempt slug, validSlug slug →
      validSlug (ensureUniqueSlugGo slugTaken rand2 ts baseSlug attempt fuel slug).1 := by
  intro fuel
  induction fuel with
  | zero =>
    intro attempt slug _
    exact validSlug_hyphen_append baseSlug ts hb hts
  | succ fuel ih =>
    intro attempt slug hs
    by_cases h : slugTaken slug
    · have hnext : validSlug (baseSlug ++ "-"
          ++ String.mk (generateRandomSuffix (rand2 attempt) 2)) :=
        validSlug_hyphen_append baseSlug _ hb
          (fun c hc => (generateRandomSuffix_chars (rand2 attempt) 2 c hc).2)
      simpa [ensureUniqueSlugGo, h] using ih (attempt + 1) _ hnext
    · simpa [ensureUniqueSlugGo, h] using hs

/-- C8: the allocated slug (`generateSlug` then `ensureUniqueSlug`) is
always non-empty and made only of `[a-z0-9-]` characters; on the
boundary input `"!!! ___ "` normalization strips everything, the base
prefix is empty, and the allocated slug is a hyphen followed by the
4-character random suffix. -/
theorem allocateSlug_valid :
    (∀ slugTaken rand2 rand4 now name,
        validSlug (ensureUniqueSlug slugTaken rand2 now (generateSlug rand4 name)))
    ∧ slugBase "!!! ___ " = []
    ∧ (∀ rand4 : Nat → Nat, generateSlug rand4 "!!! ___ "
        = String.mk ('-' :: generateRandomSuffix rand4 4))
    ∧ (∀ rand4 rand2 now,
        ensureUniqueSlug (fun _ => false) rand2 now (generateSlug rand4 "!!! ___ ")
          = generateSlug rand4 "!!! ___ ")
    ∧ (∀ rand4 : Nat → Nat, (generateSlug rand4 "!!! ___ ").toList.length = 5) := by
  have hempty : slugBase "!!! ___ " = [] := by decide
  refine ⟨?_, hempty, ?_, ?_, ?_⟩
  · intro slugTaken rand2 rand4 now name
    exact ensureUniqueSlugGo_valid slugTaken rand2 _ _ (generateSlug_valid rand4 name)
      (timestampSuffix_chars now) 5 0 _ (generateSlug_valid rand4 name)
  · intro rand4
    rw [generateSlug, hempty]
    simp
  · intro rand4 rand2 now
    simp [ensureUniqueSlug, ensureUniqueSlugGo]
  · intro rand4
    show (slugBase "!!! ___ " ++ '-' :: generateRandomSuffix rand4 4).length = 5
    rw [hempty]
    simp [generateRandomSuffix_length]

theorem allocateSlug_valid_witness :
    validSlug (ensureUniqueSlug (fun _ => false) (fun _ _ => 0) 0
      (generateSlug (fun _ => 0) "Bella"))
    ∧ ensureUniqueSlug (fun _ => false) (fun _ _ => 0) 0
        (generateSlug (fun _ => 0) "!!! ___ ") = "-aaaa" := by
  constructor
  · exact allocateSlug_valid.1 (fun _ => false) (fun _ _ => 0) (fun _ => 0) 0 "Bella"
  · rw [allocateSlug_valid.2.2.2.1 (fun _ => 0) (fun _ _ => 0) 0]
    decide

theorem canEditPet_absent (db : DB) (petId : Nat) (uid : String)
    (h : dbGetPet db petId = none) : canEditPet db petId uid = false := by
  simp [canEditPet, getPetMembership, h]

/-- C5 counterexample: an authenticated `updatePet` on a pet id that
resolves to no document fails with `UNAUTHORIZED`, not `NOT_FOUND`,
because the handler runs `canEditPet` before loading the pet. -/
theorem updatePet_missing_counterexample :
    updatePet 0 (some "u1") emptyDB 0 {} = .error .unauthorized
    ∧ Err.unauthorized ≠ Err.notFound := by
  exact ⟨rfl, by decide⟩

/-- C5 (amended): `updatePet` (like the member and contact mutations)
checks `canEditPet` before loading the target pet, so a non-existent pet
id fails with `Unauthorized`; only `deletePet` loads the pet first and
fails with `NotFound` on a missing pet.  Every failure is raised before
any write (the transactional `Except` encoding returns no store on
error). -/
theorem authorization_ordering :
    (∀ now uid db petId updates, dbGetPet db petId = none →
        updatePet now (some uid) db petId updates = .error .unauthorized)
    ∧ (∀ now uid db petId c, dbGetPet db petId = none →
        addPetContact now (some uid) db petId c = .error .unauthorized)
    ∧ (∀ now uid db petId, dbGetPet db petId = none →
        deletePet now (some uid) db petId = .error .notFound) := by
  refine ⟨?_, ?_, ?_⟩
  · intro now uid db petId updates h
    simp [updatePet, canEditPet_absent db petId uid h]
  · intro now uid db petId c h
    simp [addPetContact, canEditPet_absent db petId uid h]
  · intro now uid db petId h
    simp [deletePet, h]

theorem authorization_ordering_witness :
    updatePet 3 (some "u1") emptyDB 5 {} = .error .unauthorized
    ∧ deletePet 3 (some "u1") emptyDB 5 = .error .notFound :=
  ⟨authorization_ordering.1 3 "u1" emptyDB 5 {} rfl,
   authorization_ordering.2.2 3 "u1" emptyDB 5 rfl⟩

theorem find?_patch_same (l : List (Nat × Pet)) (petId : Nat) (newPet : Pet)
    (pet : Pet) (h : (l.find? (fun e => e.1 == petId)).map (·.2) = some pet) :
    (modifyFirst (fun e => e.1 == petId) (fun e => (e.1, newPet)) l).find?
        (fun e => e.1 == petId) = some (petId, newPet) := by
  induction l with
  | nil => simp [List.find?] at h
  | cons a l ih =>
    cases ha : (a.1 == petId) with
    | true =>
      have : a.1 = petId := by simpa using ha
      simp [modifyFirst, List.find?, ha, this]
    | false =>
      simp only [List.find?, ha] at h
      simp only [modifyFirst, ha, Bool.false_eq_true, if_false, List.find?]
      exact ih h

theorem find?_patch_other (l : List (Nat × Pet)) (petId q : Nat) (newPet : Pet)
    (hne : q ≠ petId) :
    (modifyFirst (fun e => e.1 == petId) (fun e => (e.1, newPet)) l).find?
        (fun e => e.1 == q) = l.find? (fun e => e.1 == q) := by
  induction l with
  | nil => rfl
  | cons a l ih =>
    cases ha : (a.1 == petId) with
    | true =>
      have ha' : a.1 = petId := by simpa using ha
      have hq : (a.1 == q) = false := by
        simp [ha']
        omega
      simp [modifyFirst, List.find?, ha, hq]
    | false =>
      cases haq : (a.1 == q) with
      | true => simp [modifyFirst, List.find?, ha, haq]
      | false => simp [modifyFirst, List.find?, ha, haq, ih]

theorem dbGetPet_patch_same (db : DB) (petId : Nat) (newPet pet : Pet)
    (h : dbGetPet db petId = some pet) :
    dbGetPet (dbPatchPet db petId newPet) petId = some newPet := by
  unfold dbGetPet dbPatchPet
  rw [find?_patch_same db.pets petId newPet pet h]
  rfl

theorem dbGetPet_patch_other (db : DB) (petId q : Nat) (newPet : Pet)
    (hne : q ≠ petId) :
    dbGetPet (dbPatchPet db petId newPet) q = dbGetPet db q := by
  unfold dbGetPet dbPatchPet
  rw [find?_patch_other db.pets petId q newPet hne]

/-- C9: `deletePet` never removes the pet document — on success the store
still resolves the pet id, to the old record with only `status` set to
`archived` and `updatedAt` bumped (slug, name, owner, contacts and share
settings all unchanged); the `petMembers` table, the id counter and every
other pet are untouched, and the slug is still occupied in the store. -/
theorem deletePet_frame (now : Nat) (auth : Option String) (db : DB)
    (petId : Nat) (db' : DB) (h : deletePet now auth db petId = .ok db') :
    ∃ pet uid, auth = some uid ∧ dbGetPet db petId = some pet
      ∧ pet.ownerUserId = uid
      ∧ dbGetPet db' petId = some { pet with status := .archived, updatedAt := now }
      ∧ db'.petMembers = db.petMembers
      ∧ db'.nextId = db.nextId
      ∧ (∀ q, q ≠ petId → dbGetPet db' q = dbGetPet db q)
      ∧ dbSlugTaken db' pet.slug = true := by
  cases auth with
  | none => simp [deletePet] at h
  | some uid =>
    simp only [deletePet] at h
    split at h
    next hp => simp at h
    next pet hp =>
      split at h
      next howner =>
        simp only [Except.ok.injEq] at h
        subst h
        refine ⟨pet, uid, rfl, hp, by simpa using howner,
          dbGetPet_patch_same db petId _ pet hp, rfl, rfl,
          fun q hq => dbGetPet_patch_other db petId q _ hq, ?_⟩
        have hfind := find?_patch_same db.pets petId
          { pet with status := .archived, updatedAt := now } pet hp
        have hmem := List.mem_of_find?_eq_some hfind
        apply List.any_eq_true.mpr
        exact ⟨(petId, { pet with status := .archived, updatedAt := now }),
          hmem, by simp⟩
      next howner => simp at h

theorem deletePet_frame_witness :
    ∃ pet uid, (some "u1" : Option String) = some uid
      ∧ dbGetPet sampleDB 0 = some pet
      ∧ pet.ownerUserId = uid
      ∧ dbGetPet delDB 0 = some { pet with status := .archived, updatedAt := 5 }
      ∧ delDB.petMembers = sampleDB.petMembers
      ∧ delDB.nextId = sampleDB.nextId
      ∧ (∀ q, q ≠ 0 → dbGetPet delDB q = dbGetPet sampleDB q)
      ∧ dbSlugTaken delDB pet.slug = true :=
  deletePet_frame 5 (some "u1") sampleDB 0 delDB rfl

/-- C10 (amended): the contact mutations enforce the 5-entry cap and the
index bounds — `addPetContact` fails with `VALIDATION_ERROR` and leaves
the store unchanged when the pet already has 5 contacts and otherwise
appends exactly one; `updatePetContact`/`removePetContact` fail with
`VALIDATION_ERROR` on any index outside `[0, contacts.length)` and never
grow the array.  The 5-entry cap is, however, not an invariant of every
reachable store state, because `createPet` (and `updatePet`) accept a
`contacts` array of arbitrary length. -/
theorem petContacts_bounds :
    (∀ now uid db petId c pet, canEditPet db petId uid = true →
        dbGetPet db petId = some pet → 5 ≤ pet.contacts.length →
        addPetContact now (some uid) db petId c = .error .validationError)
    ∧ (∀ now uid db petId c db', addPetContact now (some uid) db petId c = .ok db' →
        ∃ pet, dbGetPet db petId = some pet ∧ pet.contacts.length < 5
          ∧ dbGetPet db' petId
              = some { pet with contacts := pet.contacts ++ [c], updatedAt := now })
    ∧ (∀ now uid db petId i u pet, canEditPet db petId uid = true →
        dbGetPet db petId = some pet →
        (i < 0 ∨ (pet.contacts.length : Int) ≤ i) →
        updatePetContact now (some uid) db petId i u = .error .validationError)
    ∧ (∀ now uid db petId i u db',
        updatePetContact now (some uid) db petId i u = .ok db' →
        ∃ pet, dbGetPet db petId = some pet
          ∧ (dbGetPet db' petId).map (fun p => p.contacts.length)
              = some pet.contacts.length)
    ∧ (∀ now uid db petId i pet, canEditPet db petId uid = true →
        dbGetPet db petId = some pet →
        (i < 0 ∨ (pet.contacts.length : Int) ≤ i) →
        removePetContact now (some uid) db petId i = .error .validationError)
    ∧ (∀ now uid db petId i db',
        removePetContact now (some uid) db petId i = .ok db' →
        ∃ pet, dbGetPet db petId = some pet
          ∧ (dbGetPet db' petId).map (fun p => p.contacts.length)
              = some (pet.contacts.length - 1)) := by
  refine ⟨?_, ?_, ?_, ?_, ?_, ?_⟩
  · intro now uid db petId c pet hEdit hget hlen
    simp [addPetContact, hEdit, hget, hlen]
  · intro now uid db petId c db' h
    simp only [addPetContact] at h
    split at h
    · split at h
      next hget => simp at h
      next pet hget =>
        split at h
        next => simp at h
        next hlt =>
          simp only [Except.ok.injEq] at h
          subst h
          exact ⟨pet, hget, by omega,
            dbGetPet_patch_same db petId _ pet hget⟩
    · simp at h
  · intro now uid db petId i u pet hEdit hget hoob
    simp [updatePetContact, hEdit, hget, hoob]
  · intro now uid db petId i u db' h
    simp only [updatePetContact] at h
    split at h
    · split at h
      next hget => simp at h
      next pet hget =>
        split at h
        next => simp at h
        next hin =>
          simp only [Except.ok.injEq] at h
          subst h
          refine ⟨pet, hget, ?_⟩
          rw [dbGetPet_patch_same db petId _ pet hget]
          simp
    · simp at h
  · intro now uid db petId i pet hEdit hget hoob
    simp [removePetContact, hEdit, hget, hoob]
  · intro now uid db petId i db' h
    simp only [removePetContact] at h
    split at h
    · split at h
      next hget => simp at h
      next pet hget =>
        split at h
        next => simp at h
        next hin =>
          simp only [Except.ok.injEq] at h
          subst h
          refine ⟨pet, hget, ?_⟩
          rw [dbGetPet_patch_same db petId _ pet hget]
          have hlt : i.toNat < pet.contacts.length := by
            push_neg at hin
            omega
          simp [List.length_eraseIdx, hlt]
    · simp at h

theorem petContacts_bounds_witness :
    addPetContact 9 (some "u1") fullDB 0 ⟨"B", .vet, none, none, true⟩
        = .error .validationError
    ∧ (∃ pet, dbGetPet sampleDB 0 = some pet ∧ pet.contacts.length < 5
        ∧ dbGetPet addedDB 0 = some { pet with
            contacts := pet.contacts ++ [⟨"B", .vet, none, none, true⟩]
            updatedAt := 9 }) := by
  constructor
  · exact petContacts_bounds.1 9 "u1" fullDB 0 _ fullPet (by decide) (by decide)
      (by decide)
  · exact petContacts_bounds.2.1 9 "u1" sampleDB 0 _ addedDB rfl

theorem mem_modifyFirst {α : Type} {p : α → Bool} {f : α → α} {l : List α} {x : α}
    (h : x ∈ modifyFirst p f l) : x ∈ l ∨ ∃ y ∈ l, p y = true ∧ x = f y := by
  induction l with
  | nil => simp [modifyFirst] at h
  | cons a l ih =>
    cases ha : p a with
    | true =>
      rw [modifyFirst, ha, if_pos rfl] at h
      rcases List.mem_cons.mp h with h | h
      · exact Or.inr ⟨a, List.mem_cons_self a l, ha, h⟩
      · exact Or.inl (List.mem_cons_of_mem a h)
    | false =>
      rw [modifyFirst, ha] at h
      simp only [Bool.false_eq_true, if_false] at h
      rcases List.mem_cons.mp h with h | h
      · exact Or.inl (h ▸ List.mem_cons_self a l)
      · rcases ih h with h | ⟨y, hy, hpy, hx⟩
        · exact Or.inl (List.mem_cons_of_mem a h)
        · exact Or.inr ⟨y, List.mem_cons_of_mem a hy, hpy, hx⟩

theorem modifyFirst_map {α β : Type} {p : α → Bool} {f : α → α} {g : α → β}
    (l : List α) (hg : ∀ a, p a = true → g (f a) = g a) :
    (modifyFirst p f l).map g = l.map g := by
  induction l with
  | nil => rfl
  | cons a l ih =>
    cases ha : p a with
    | true => simp [modifyFirst, ha, hg a ha]
    | false => simp [modifyFirst, ha, ih]

theorem dbGetPet_entry {db : DB} {petId : Nat} {pet : Pet}
    (h : dbGetPet db petId = some pet) : (petId, pet) ∈ db.pets := by
  unfold dbGetPet at h
  cases hf : db.pets.find? (fun e => e.1 == petId) with
  | none => rw [hf] at h; simp at h
  | some en =>
    rw [hf] at h
    simp at h
    have hmem := List.mem_of_find?_eq_some hf
    have h1' : en.1 = petId := by
      have h1 := List.find?_some hf
      simpa using h1
    have hen : en = (petId, pet) := by
      obtain ⟨e1, e2⟩ := en
      simp only at h1' h
      rw [h1', h]
    rwa [hen] at hmem

theorem createPet_ok {env : SlugEnv} {auth : Option String} {db : DB}
    {args : CreateArgs} {db' : DB} {petId : Nat}
    (h : createPet env auth db args = .ok (db', petId)) :
    ∃ pet : Pet,
      db'.pets = db.pets ++ [(db.nextId, pet)]
      ∧ db'.petMembers
          = db.petMembers ++ [⟨db.nextId, pet.ownerUserId, .owner, env.now⟩]
      ∧ db'.nextId = db.nextId + 1 := by
  cases auth with
  | none => simp [createPet] at h
  | some uid =>
    simp only [createPet] at h
    split at h
    · simp at h
    · split at h
      · simp at h
      · simp only [Except.ok.injEq, Prod.mk.injEq] at h
        obtain ⟨h1, h2⟩ := h
        subst h1
        exact ⟨_, rfl, rfl, rfl⟩

theorem updatePet_ok {now : Nat} {auth : Option String} {db : DB} {petId : Nat}
    {updates : UpdateArgs} {db' : DB}
    (h : updatePet now auth db petId updates = .ok db') :
    ∃ pet newPet, dbGetPet db petId = some pet
      ∧ newPet.ownerUserId = pet.ownerUserId
      ∧ db' = dbPatchPet db petId newPet := by
  cases auth with
  | none => simp [updatePet] at h
  | some uid =>
    simp only [updatePet] at h
    split at h
    · split at h
      next hget => simp at h
      next pet hget =>
        split at h
        next n =>
          split at h
          · simp at h
          · split at h
            · simp at h
            · simp only [Except.ok.injEq] at h
              refine ⟨pet, _, hget, ?_, h.symm⟩
              rfl
        next =>
          simp only [Except.ok.injEq] at h
          refine ⟨pet, _, hget, ?_, h.symm⟩
          rfl
    · simp at h

theorem deletePet_ok {now : Nat} {auth : Option String} {db : DB} {petId : Nat}
    {db' : DB} (h : deletePet now auth db petId = .ok db') :
    ∃ pet newPet, dbGetPet db petId = some pet
      ∧ newPet.ownerUserId = pet.ownerUserId
      ∧ db' = dbPatchPet db petId newPet := by
  cases auth with
  | none => simp [deletePet] at h
  | some uid =>
    simp only [deletePet] at h
    split at h
    next => simp at h
    next pet hget =>
      split at h
      · simp only [Except.ok.injEq] at h
        refine ⟨pet, _, hget, ?_, h.symm⟩
        rfl
      · simp at h

theorem addPetContact_ok {now : Nat} {auth : Option String} {db : DB}
    {petId : Nat} {c : Contact} {db' : DB}
    (h : addPetContact now auth db petId c = .ok db') :
    ∃ pet newPet, dbGetPet db petId = some pet
      ∧ newPet.ownerUserId = pet.ownerUserId
      ∧ db' = dbPatchPet db petId newPet := by
  cases auth with
  | none => simp [addPetContact] at h
  | some uid =>
    simp only [addPetContact] at h
    split at h
    · split at h
      next => simp at h
      next pet hget =>
        split at h
        · simp at h
        · simp only [Except.ok.injEq] at h
          refine ⟨pet, _, hget, ?_, h.symm⟩
          rfl
    · simp at h

theorem updatePetContact_ok {now : Nat} {auth : Option String} {db : DB}
    {petId : Nat} {i : Int} {u : ContactUpdates} {db' : DB}
    (h : updatePetContact now auth db petId i u = .ok db') :
    ∃ pet newPet, dbGetPet db petId = some pet
      ∧ newPet.ownerUserId = pet.ownerUserId
      ∧ db' = dbPatchPet db petId newPet := by
  cases auth with
  | none => simp [updatePetContact] at h
  | some uid =>
    simp only [updatePetContact] at h
    split at h
    · split at h
      next => simp at h
      next pet hget =>
        split at h
        · simp at h
        · simp only [Except.ok.injEq] at h
          refine ⟨pet, _, hget, ?_, h.symm⟩
          rfl
    · simp at h

theorem removePetContact_ok {now : Nat} {auth : Option String} {db : DB}
    {petId : Nat} {i : Int} {db' : DB}
    (h : removePetContact now auth db petId i = .ok db') :
    ∃ pet newPet, dbGetPet db petId = some pet
      ∧ newPet.ownerUserId = pet.ownerUserId
      ∧ db' = dbPatchPet db petId newPet := by
  cases auth with
  | none => simp [removePetContact] at h
  | some uid =>
    simp only [removePetContact] at h
    split at h
    · split at h
      next => simp at h
      next pet hget =>
        split at h
        · simp at h
        · simp only [Except.ok.injEq] at h
          refine ⟨pet, _, hget, ?_, h.symm⟩
          rfl
    · simp at h

theorem addPetMember_ok {now : Nat} {auth : Option String} {db : DB}
    {petId : Nat} {userId : String} {role : Role} {db' : DB}
    (h : addPetMember now auth db petId userId role = .ok db') :
    ∃ pet, dbGetPet db petId = some pet
      ∧ findMemberRow db petId userId = none
      ∧ (pet.ownerUserId == userId) = false
      ∧ db'.pets = db.pets ∧ db'.nextId = db.nextId
      ∧ db'.petMembers = db.petMembers ++ [⟨petId, userId, role, now⟩] := by
  cases auth with
  | none => simp [addPetMember] at h
  | some uid =>
    simp only [addPetMember] at h
    split at h
    · split at h
      next hfind => simp at h
      next hfind =>
        split at h
        next hget => simp at h
        next pet hget =>
          split at h
          next howner => simp at h
          next howner =>
            simp only [Except.ok.injEq] at h
            subst h
            exact ⟨pet, hget, hfind, by simpa using howner, rfl, rfl, rfl⟩
    · simp at h

theorem removePetMember_ok {auth : Option String} {db : DB} {petId : Nat}
    {userId : String} {db' : DB}
    (h : removePetMember auth db petId userId = .ok db') :
    ∃ pet, dbGetPet db petId = some pet
      ∧ (pet.ownerUserId == userId) = false
      ∧ db'.pets = db.pets ∧ db'.nextId = db.nextId
      ∧ db'.petMembers
          = db.petMembers.eraseP (fun m => m.petId == petId && m.userId == userId) := by
  cases auth with
  | none => simp [removePetMember] at h
  | some uid =>
    simp only [removePetMember] at h
    split at h
    · split at h
      next hget => simp at h
      next pet hget =>
        split at h
        next howner => simp at h
        next howner =>
          split at h
          next hfind => simp at h
          next hfind =>
            simp only [Except.ok.injEq] at h
            subst h
            exact ⟨pet, hget, by simpa using howner, rfl, rfl, rfl⟩
    · simp at h

theorem updatePetMemberRole_ok {auth : Option String} {db : DB} {petId : Nat}
    {userId : String} {newRole : Role} {db' : DB}
    (h : updatePetMemberRole auth db petId userId newRole = .ok db') :
    db'.pets = db.pets ∧ db'.nextId = db.nextId
    ∧ db'.petMembers = modifyFirst (fun m => m.petId == petId && m.userId == userId)
        (fun m => { m with role := newRole }) db.petMembers := by
  cases auth with
  | none => simp [updatePetMemberRole] at h
  | some uid =>
    simp only [updatePetMemberRole] at h
    split at h
    · split at h
      next hfind => simp at h
      next hfind =>
        simp only [Except.ok.injEq] at h
        subst h
        exact ⟨rfl, rfl, rfl⟩
    · simp at h

theorem DBInv_empty : DBInv emptyDB := by
  refine ⟨by simp [emptyDB], ?_, ?_, ?_, ?_⟩ <;> simp [emptyDB, memberKeys, membersUnique]

/-- Patching a pet without changing its primary owner preserves the
invariant (the pets' id list and the member table are untouched). -/
theorem DBInv_patch {db : DB} {petId : Nat} {pet newPet : Pet} (hInv : DBInv db)
    (hget : dbGetPet db petId = some pet)
    (howner : newPet.ownerUserId = pet.ownerUserId) :
    DBInv (dbPatchPet db petId newPet) := by
  obtain ⟨hnd, hpb, hmb, hmu, hor⟩ := hInv
  have hmap : (dbPatchPet db petId newPet).pets.map Prod.fst
      = db.pets.map Prod.fst :=
    modifyFirst_map db.pets (fun a _ => rfl)
  have hkeys : memberKeys (dbPatchPet db petId newPet) = memberKeys db := rfl
  refine ⟨by rw [hmap]; exact hnd, by rw [hmap]; exact hpb, hmb, hmu, ?_⟩
  intro e he
  rcases mem_modifyFirst he with h | ⟨y, hy, hpy, hx⟩
  · exact hor e h
  · have hy1 : y.1 = petId := by simpa using hpy
    have hpm := dbGetPet_entry hget
    subst hx
    have hkey : (((y.1, newPet) : Nat × Pet).1,
        ((y.1, newPet) : Nat × Pet).2.ownerUserId) = (petId, pet.ownerUserId) := by
      simp [hy1, howner]
    rw [hkeys, hkey]
    exact hor (petId, pet) hpm

theorem DBInv_createPet {env : SlugEnv} {auth : Option String} {db : DB}
    {args : CreateArgs} {db' : DB} {petId : Nat} (hInv : DBInv db)
    (h : createPet env auth db args = .ok (db', petId)) : DBInv db' := by
  obtain ⟨pet, hpets, hmem, hnext⟩ := createPet_ok h
  obtain ⟨hnd, hpb, hmb, hmu, hor⟩ := hInv
  have hnew : db.nextId ∉ db.pets.map Prod.fst := fun hc => absurd (hpb _ hc) (by omega)
  refine ⟨?_, ?_, ?_, ?_, ?_⟩
  · rw [hpets, List.map_append]
    refine List.Nodup.append hnd (List.nodup_singleton _) ?_
    intro a ha hb
    simp only [List.map_cons, List.map_nil, List.mem_singleton] at hb
    exact hnew (hb ▸ ha)
  · rw [hpets, hnext, List.map_append]
    intro i hi
    rcases List.mem_append.mp hi with hi | hi
    · exact Nat.lt_succ_of_lt (hpb i hi)
    · simp only [List.map_cons, List.map_nil, List.mem_singleton] at hi
      omega
  · rw [hnext]
    intro k hk
    rw [memberKeys, hmem, List.map_append] at hk
    rcases List.mem_append.mp hk with hk | hk
    · exact Nat.lt_succ_of_lt (hmb k hk)
    · simp only [List.map_cons, List.map_nil, List.mem_singleton] at hk
      subst hk
      omega
  · rw [membersUnique, memberKeys, hmem, List.map_append]
    refine List.Nodup.append hmu (List.nodup_singleton _) ?_
    intro k hk hk'
    simp only [List.map_cons, List.map_nil, List.mem_singleton] at hk'
    have := hmb k hk
    rw [hk'] at this
    simp at this
  · intro e he
    rw [hpets] at he
    rw [memberKeys, hmem, List.map_append]
    rcases List.mem_append.mp he with he | he
    · exact List.mem_append_left _ (hor e he)
    · simp only [List.mem_singleton] at he
      subst he
      apply List.mem_append_right
      simp

theorem DBInv_addPetMember {now : Nat} {auth : Option String} {db : DB}
    {petId : Nat} {userId : String} {role : Role} {db' : DB} (hInv : DBInv db)
    (h : addPetMember now auth db petId userId role = .ok db') : DBInv db' := by
  obtain ⟨pet, hget, hfind, howner, hpets, hnext, hmem⟩ := addPetMember_ok h
  obtain ⟨hnd, hpb, hmb, hmu, hor⟩ := hInv
  have hid : petId < db.nextId := by
    have := dbGetPet_entry hget
    exact hpb petId (List.mem_map.mpr ⟨(petId, pet), this, rfl⟩)
  have hnotin : (petId, userId) ∉ memberKeys db := by
    intro hc
    rw [memberKeys] at hc
    obtain ⟨m, hm, hkey⟩ := List.mem_map.mp hc
    have := List.find?_eq_none.mp hfind m hm
    simp only [Prod.mk.injEq] at hkey
    simp [hkey.1, hkey.2] at this
  refine ⟨hpets ▸ hnd, ?_, ?_, ?_, ?_⟩
  · rw [hpets, hnext]
    exact hpb
  · rw [hnext]
    intro k hk
    rw [memberKeys, hmem, List.map_append] at hk
    rcases List.mem_append.mp hk with hk | hk
    · exact hmb k hk
    · simp only [List.map_cons, List.map_nil, List.mem_singleton] at hk
      subst hk
      exact hid
  · rw [membersUnique, memberKeys, hmem, List.map_append]
    refine List.Nodup.append hmu (List.nodup_singleton _) ?_
    intro k hk hk'
    simp only [List.map_cons, List.map_nil, List.mem_singleton] at hk'
    subst hk'
    exact hnotin hk
  · intro e he
    rw [hpets] at he
    rw [memberKeys, hmem, List.map_append]
    exact List.mem_append_left _ (hor e he)

theorem DBInv_removePetMember {auth : Option String} {db : DB} {petId : Nat}
    {userId : String} {db' : DB} (hInv : DBInv db)
    (h : removePetMember auth db petId userId = .ok db') : DBInv db' := by
  obtain ⟨pet, hget, howner, hpets, hnext, hmem⟩ := removePetMember_ok h
  obtain ⟨hnd, hpb, hmb, hmu, hor⟩ := hInv
  have hsub : List.Sublist db'.petMembers db.petMembers :=
    hmem ▸ List.eraseP_sublist db.petMembers
  have hksub : List.Sublist (memberKeys db') (memberKeys db) := hsub.map _
  refine ⟨hpets ▸ hnd, ?_, ?_, ?_, ?_⟩
  · rw [hpets, hnext]
    exact hpb
  · rw [hnext]
    intro k hk
    exact hmb k (hksub.mem hk)
  · exact hmu.sublist hksub
  · intro e he
    rw [hpets] at he
    have hkey := hor e he
    rw [memberKeys] at hkey
    obtain ⟨m, hm, hmk⟩ := List.mem_map.mp hkey
    have hpred : (m.petId == petId && m.userId == userId) = false := by
      by_contra hc
      have hp : (m.petId == petId && m.userId == userId) = true := by
        revert hc; cases m.petId == petId && m.userId == userId <;> simp
      · simp only [Bool.and_eq_true, beq_iff_eq] at hp
        simp only [Prod.mk.injEq] at hmk
        -- m keys equal this pet entry's key, and m matches (petId, userId),
        -- so e is the pet with id petId and its owner would be userId
        have he1 : e.1 = petId := by rw [← hmk.1, hp.1]
        have hpe := dbGetPet_entry hget
        have : e = (petId, pet) := by
          apply List.inj_on_of_nodup_map hnd he hpe
          simpa using he1
        have : e.2.ownerUserId = userId := by rw [← hmk.2, hp.2]
        rw [‹e = (petId, pet)›] at this
        simp only at this
        rw [this] at howner
        simp at howner
    have hm' : m ∈ db'.petMembers := by
      rw [hmem]
      exact (List.mem_eraseP_of_neg (by simp [hpred])).mpr hm
    rw [memberKeys]
    exact List.mem_map.mpr ⟨m, hm', hmk⟩

theorem DBInv_updatePetMemberRole {auth : Option String} {db : DB} {petId : Nat}
    {userId : String} {newRole : Role} {db' : DB} (hInv : DBInv db)
    (h : updatePetMemberRole auth db petId userId newRole = .ok db') : DBInv db' := by
  obtain ⟨hpets, hnext, hmem⟩ := updatePetMemberRole_ok h
  obtain ⟨hnd, hpb, hmb, hmu, hor⟩ := hInv
  have hkeys : memberKeys db' = memberKeys db := by
    rw [memberKeys, hmem, memberKeys]
    exact modifyFirst_map db.petMembers (fun m _ => rfl)
  refine ⟨hpets ▸ hnd, ?_, ?_, ?_, ?_⟩
  · rw [hpets, hnext]
    exact hpb
  · rw [hnext, hkeys]
    exact hmb
  · rw [membersUnique, hkeys]
    exact hmu
  · intro e he
    rw [hpets] at he
    rw [hkeys]
    exact hor e he

/-- Every reachable store satisfies the inductive invariant. -/
theorem reached_DBInv {db : DB} (h : Reached db) : DBInv db := by
  induction h with
  | init => exact DBInv_empty
  | createStep _ hok ih => exact DBInv_createPet ih hok
  | updateStep _ hok ih =>
    obtain ⟨pet, newPet, hget, howner, hdb⟩ := updatePet_ok hok
    exact hdb ▸ DBInv_patch ih hget howner
  | deleteStep _ hok ih =>
    obtain ⟨pet, newPet, hget, howner, hdb⟩ := deletePet_ok hok
    exact hdb ▸ DBInv_patch ih hget howner
  | addMemberStep _ hok ih => exact DBInv_addPetMember ih hok
  | removeMemberStep _ hok ih => exact DBInv_removePetMember ih hok
  | updateRoleStep _ hok ih => exact DBInv_updatePetMemberRole ih hok
  | addContactStep _ hok ih =>
    obtain ⟨pet, newPet, hget, howner, hdb⟩ := addPetContact_ok hok
    exact hdb ▸ DBInv_patch ih hget howner
  | updateContactStep _ hok ih =>
    obtain ⟨pet, newPet, hget, howner, hdb⟩ := updatePetContact_ok hok
    exact hdb ▸ DBInv_patch ih hget howner
  | removeContactStep _ hok ih =>
    obtain ⟨pet, newPet, hget, howner, hdb⟩ := removePetContact_ok hok
    exact hdb ▸ DBInv_patch ih hget howner

theorem createPet_rex_eq :
    createPet createEnv (some "u1") emptyDB { name := "Rex" } = .ok (dbRex, 0) := rfl

/-- C4 counterexample: immediately after `createPet`, the primary owner
`u1` of the freshly created pet 0 does have a `petMembers` row for it —
`createPet` inserts an initial owner-role row — so the claimed "the
primary owner never has a petMembers row" is false in a reachable
state. -/
theorem createPet_ownerRow_counterexample :
    Reached dbRex
    ∧ (dbGetPet dbRex 0).map Pet.ownerUserId = some "u1"
    ∧ memberKeys dbRex = [(0, "u1")] := by
  refine ⟨Reached.createStep Reached.init createPet_rex_eq, rfl, rfl⟩

/-- C4 (amended): in every store state reachable through the public
mutations there is at most one `petMembers` row per `(pet, user)` pair;
but the primary owner, far from never having a row, always has one for
each of their pets — `createPet` inserts an owner-role row at creation
and the other mutations preserve it. -/
theorem reachable_member_invariants (db : DB) (h : Reached db) :
    membersUnique db
    ∧ (∀ e ∈ db.pets, (e.1, e.2.ownerUserId) ∈ memberKeys db) := by
  have hInv := reached_DBInv h
  exact ⟨hInv.2.2.2.1, hInv.2.2.2.2⟩

theorem reachable_member_invariants_witness :
    membersUnique dbRex
    ∧ (∀ e ∈ dbRex.pets, (e.1, e.2.ownerUserId) ∈ memberKeys dbRex) :=
  reachable_member_invariants dbRex (Reached.createStep Reached.init createPet_rex_eq)

theorem createPet_six_eq :
    createPet createEnv (some "u1") emptyDB
      { name := "Rex", contacts := some sixContacts } = .ok (dbSix, 0) := rfl

/-- C10 counterexample: `createPet` performs no length check on the
supplied `contacts` array, so a reachable store state holds a pet with 6
contacts — the 5-entry bound is not an invariant of every reachable
state. -/
theorem petContacts_bound_counterexample :
    Reached dbSix
    ∧ (dbGetPet dbSix 0).map (fun p => p.contacts.length) = some 6 := by
  refine ⟨Reached.createStep Reached.init createPet_six_eq, rfl⟩

end Pets
